import Mathlib

/-!
Verification of the snake-game core of `src/main.rs` (a bevy 0.5 app).

The per-system functions below are shallow embeddings of the Rust systems:
each Lean function takes the data the corresponding Rust system receives
through its queries and resources (the `PlayerSegments` chain, the head
query, the `Position` component store, the keyboard state) and returns the
updated data together with the emitted `GameOverEvent` count.  Fallible
lookups that the Rust code `unwrap()`s are modelled with `Option`: a
`none` result is a panic (an aborted tick).
-/

set_option autoImplicit false

namespace NuisanceValue

/-- Embedding of `const ARENA_WIDTH: u32 = 100`. -/
def ARENA_WIDTH : Nat := 100

/-- Embedding of `const ARENA_HEIGHT: u32 = 100`. -/
def ARENA_HEIGHT : Nat := 100

/-- Embedding of `struct Position { x: i32, y: i32 }`. -/
structure Position where
  x : Int
  y : Int
deriving DecidableEq, Repr

/-- Embedding of `enum Direction { Left, Up, Right, Down }`. -/
inductive Direction
  | Left
  | Up
  | Right
  | Down
deriving DecidableEq, Repr, Fintype

/-- Embedding of `Direction::opposite`. -/
def Direction.opposite : Direction → Direction
  | .Left => .Right
  | .Right => .Left
  | .Up => .Down
  | .Down => .Up

/-- The head-advance `match` in `player_movement` (`head_pos.x -= 1`, ...). -/
def moveDir (dir : Direction) (p : Position) : Position :=
  match dir with
  | .Left => ⟨p.x - 1, p.y⟩
  | .Right => ⟨p.x + 1, p.y⟩
  | .Up => ⟨p.x, p.y + 1⟩
  | .Down => ⟨p.x, p.y - 1⟩

/-- The out-of-bounds test of `player_movement`:
`head_pos.x < 0 || head_pos.y < 0 || head_pos.x as u32 >= ARENA_WIDTH || head_pos.y as u32 >= ARENA_HEIGHT`
(for `x ≥ 0` the `as u32` cast is the identity, and negative values are
caught by the first two disjuncts, so over `Int` the test is as below). -/
abbrev OutOfBounds (p : Position) : Prop :=
  p.x < 0 ∨ p.y < 0 ∨ (ARENA_WIDTH : Int) ≤ p.x ∨ (ARENA_HEIGHT : Int) ≤ p.y

/-- A grid position inside `[0, ARENA_WIDTH) × [0, ARENA_HEIGHT)`. -/
abbrev InBounds (p : Position) : Prop :=
  0 ≤ p.x ∧ 0 ≤ p.y ∧ p.x < (ARENA_WIDTH : Int) ∧ p.y < (ARENA_HEIGHT : Int)

theorem not_outOfBounds_of_inBounds {p : Position} (h : InBounds p) :
    ¬ OutOfBounds p := by
  obtain ⟨h1, h2, h3, h4⟩ := h
  intro hc
  rcases hc with h | h | h | h <;> omega

/-- Writing one entity's `Position` component (`*positions.get_mut(e).unwrap() = p`). -/
def posSet (positions : Nat → Option Position) (e : Nat) (p : Position) :
    Nat → Option Position :=
  fun e' => if e' = e then some p else positions e'

/-- The pre-move capture in `player_movement`:
`segments.0.iter().map(|e| *positions.get_mut(*e).unwrap()).collect()`.
A chain entity without a `Position` component makes the `unwrap` panic,
modelled as `none`. -/
def collectPositions (positions : Nat → Option Position) :
    List Nat → Option (List Position)
  | [] => some []
  | e :: es =>
    match positions e, collectPositions positions es with
    | some p, some ps => some (p :: ps)
    | _, _ => none

/-- The body-shift loop of `player_movement`:
`segment_positions.iter().zip(segments.0.iter().skip(1)).for_each(...)`,
assigning each pre-move position to the next chain entity; a missing
`Position` component panics (`none`). -/
def shiftBody : List Position → List Nat → (Nat → Option Position) →
    Option (Nat → Option Position)
  | p :: ps, e :: es, positions =>
    match positions e with
    | some _ => shiftBody ps es (posSet positions e p)
    | none => none
  | _, _, positions => some positions

/-- Embedding of the system `fn player_movement`.  Inputs are the
`PlayerSegments` resource (`chain`), the head query result (entity and its
`PlayerHead` direction; the system uses the first match and does nothing
when there is none) and the `Position` component store.  The result is the
updated store together with the number of `GameOverEvent`s sent. -/
def player_movement (chain : List Nat) (heads : List (Nat × Direction))
    (positions : Nat → Option Position) :
    Option ((Nat → Option Position) × Nat) :=
  match heads with
  | [] => some (positions, 0)
  | (head_entity, dir) :: _ =>
    (collectPositions positions chain).bind (fun segment_positions =>
      (positions head_entity).bind (fun hp =>
        let head_pos := moveDir dir hp
        let ev1 : Nat := if head_pos ∈ segment_positions then 1 else 0
        let ev2 : Nat := if OutOfBounds head_pos then 1 else 0
        (shiftBody segment_positions (chain.drop 1)
            (posSet positions head_entity head_pos)).map
          (fun positions2 => (positions2, ev1 + ev2))))

theorem collectPositions_cons_some {positions : Nat → Option Position}
    {e : Nat} {es : List Nat} {l : List Position}
    (h : collectPositions positions (e :: es) = some l) :
    ∃ p ps, positions e = some p ∧ collectPositions positions es = some ps ∧
      l = p :: ps := by
  unfold collectPositions at h
  split at h
  · rename_i p ps hp hps
    exact ⟨p, ps, hp, hps, (Option.some_injective _ h).symm⟩
  · exact absurd h (by simp)

theorem collectPositions_isSome_of_mem {positions : Nat → Option Position} :
    ∀ {es : List Nat} {l : List Position},
      collectPositions positions es = some l →
      ∀ e ∈ es, (positions e).isSome
  | [], _, _, e, he => absurd he (by simp)
  | e' :: es, l, h, e, he => by
    obtain ⟨p, ps, hp, hps, _⟩ := collectPositions_cons_some h
    rcases List.mem_cons.mp he with rfl | hmem
    · simp [hp]
    · exact collectPositions_isSome_of_mem hps e hmem

theorem posSet_isSome {positions : Nat → Option Position} {e' : Nat}
    {e : Nat} {p : Position} (h : (positions e).isSome ∨ e = e') :
    ((posSet positions e' p) e).isSome := by
  unfold posSet
  rcases h with h | rfl
  · split <;> simp [h]
  · simp

theorem shiftBody_some :
    ∀ (pre : List Position) (rest : List Nat)
      (positions : Nat → Option Position),
      (∀ e ∈ rest, (positions e).isSome) →
      ∃ positions', shiftBody pre rest positions = some positions'
  | [], rest, positions, _ => ⟨positions, rfl⟩
  | _ :: _, [], positions, _ => ⟨positions, rfl⟩
  | p :: ps, e :: es, positions, h => by
    have he : (positions e).isSome := h e (List.mem_cons_self e es)
    obtain ⟨q, hq⟩ := Option.isSome_iff_exists.mp he
    have hrec := shiftBody_some ps es (posSet positions e p) (fun e' he' =>
      posSet_isSome (by
        rcases Decidable.em (e' = e) with rfl | hne
        · exact Or.inr rfl
        · exact Or.inl (h e' (List.mem_cons_of_mem _ he'))))
    obtain ⟨positions', hps⟩ := hrec
    exact ⟨positions', by simp [shiftBody, hq, hps]⟩

theorem shiftBody_apply_not_mem :
    ∀ {pre : List Position} {rest : List Nat}
      {positions positions' : Nat → Option Position},
      shiftBody pre rest positions = some positions' →
      ∀ {e : Nat}, e ∉ rest → positions' e = positions e
  | [], _, _, _, h, e, _ => by
    simp only [shiftBody] at h
    exact congrFun (Option.some_injective _ h).symm e
  | _ :: _, [], _, _, h, e, _ => by
    simp only [shiftBody] at h
    exact congrFun (Option.some_injective _ h).symm e
  | p :: ps, r :: rs, positions, positions', h, e, he => by
    simp only [shiftBody] at h
    split at h
    · have h1 : positions' e = posSet positions r p e :=
        shiftBody_apply_not_mem h (fun hc => he (List.mem_cons_of_mem _ hc))
      rw [h1]
      unfold posSet
      have : e ≠ r := fun hc => he (hc ▸ List.mem_cons_self r rs)
      simp [this]
    · exact absurd h (by simp)

theorem shiftBody_apply_get :
    ∀ {pre : List Position} {rest : List Nat}
      {positions positions' : Nat → Option Position},
      rest.Nodup →
      shiftBody pre rest positions = some positions' →
      ∀ (i : Nat) (p : Position) (e : Nat),
        pre[i]? = some p → rest[i]? = some e → positions' e = some p
  | [], rest, _, _, _, _, i, p, e, hp, _ => by simp at hp
  | _ :: _, [], _, _, _, _, i, p, e, _, he => by simp at he
  | q :: ps, r :: rs, positions, positions', hnd, h, i, p, e, hp, he => by
    simp only [shiftBody] at h
    split at h
    · match i with
      | 0 =>
        have hq : q = p := by simpa using hp
        have hr : r = e := by simpa using he
        have hnm : r ∉ rs := (List.nodup_cons.mp hnd).1
        have h1 := shiftBody_apply_not_mem h hnm
        rw [← hr, h1]
        simp [posSet, hq]
      | i + 1 =>
        simp only [List.getElem?_cons_succ] at hp he
        exact shiftBody_apply_get (List.nodup_cons.mp hnd).2 h i p e hp he
    · exact absurd h (by simp)

theorem collectPositions_length {positions : Nat → Option Position} :
    ∀ {es : List Nat} {l : List Position},
      collectPositions positions es = some l → l.length = es.length
  | [], l, h => by
    simp only [collectPositions] at h
    simp [← Option.some_injective _ h]
  | e :: es, l, h => by
    obtain ⟨p, ps, _, hps, rfl⟩ := collectPositions_cons_some h
    simp [collectPositions_length hps]

theorem player_movement_run (he : Nat) (dir : Direction)
    (hs : List (Nat × Direction)) (chain : List Nat)
    (positions : Nat → Option Position) (pre : List Position) (hp : Position)
    (hcollect : collectPositions positions chain = some pre)
    (hhe : positions he = some hp) :
    ∃ positions',
      shiftBody pre (chain.drop 1) (posSet positions he (moveDir dir hp)) =
        some positions' ∧
      player_movement chain ((he, dir) :: hs) positions =
        some (positions',
          (if moveDir dir hp ∈ pre then 1 else 0) +
          (if OutOfBounds (moveDir dir hp) then 1 else 0)) := by
  have hsome : ∀ e ∈ chain.drop 1,
      ((posSet positions he (moveDir dir hp)) e).isSome := by
    intro e hmem
    apply posSet_isSome
    rcases Decidable.em (e = he) with rfl | hne
    · exact Or.inr rfl
    · exact Or.inl
        (collectPositions_isSome_of_mem hcollect e (List.mem_of_mem_drop hmem))
  obtain ⟨positions', hps⟩ := shiftBody_some pre (chain.drop 1) _ hsome
  refine ⟨positions', hps, ?_⟩
  simp only [player_movement, hcollect, hhe, hps, Option.some_bind,
    Option.map_some']

/-- C1: whenever the movement system runs with a head entity present, the
head's `Position` advances one grid cell in its direction (Left: x-1,
Right: x+1, Up: y+1, Down: y-1), and every chain entity after the head
takes the pre-move position of its predecessor in the chain — the segment
right behind the head takes the head's pre-move position — preserving
chain order. -/
theorem player_movement_advances_and_shifts (he : Nat) (dir : Direction)
    (hs : List (Nat × Direction)) (body : List Nat)
    (positions : Nat → Option Position) (hp : Position)
    (preBody : List Position)
    (hcollect : collectPositions positions (he :: body) = some (hp :: preBody))
    (hnodup : (he :: body).Nodup) :
    ∃ (positions' : Nat → Option Position) (n : Nat),
      player_movement (he :: body) ((he, dir) :: hs) positions =
        some (positions', n) ∧
      positions' he = some (match dir with
        | Direction.Left => ⟨hp.x - 1, hp.y⟩
        | Direction.Right => ⟨hp.x + 1, hp.y⟩
        | Direction.Up => ⟨hp.x, hp.y + 1⟩
        | Direction.Down => ⟨hp.x, hp.y - 1⟩) ∧
      ∀ (i : Nat) (e : Nat), body[i]? = some e →
        positions' e = (hp :: preBody)[i]? := by
  obtain ⟨p0, preB, hpe, hrest, heq⟩ := collectPositions_cons_some hcollect
  obtain ⟨rfl, rfl⟩ : hp = p0 ∧ preBody = preB := by
    injection heq with h1 h2
    exact ⟨h1, h2⟩
  obtain ⟨positions', hshift, hrun⟩ :=
    player_movement_run he dir hs (he :: body) positions (hp :: preBody) hp
      hcollect hpe
  have hnd := List.nodup_cons.mp hnodup
  refine ⟨positions', _, hrun, ?_, ?_⟩
  · have h1 : positions' he = posSet positions he (moveDir dir hp) he :=
      shiftBody_apply_not_mem hshift hnd.1
    rw [h1]
    unfold posSet
    simp only [if_pos rfl]
    cases dir <;> rfl
  · intro i e hie
    have hilen : i < body.length := by
      by_contra hcon
      push_neg at hcon
      rw [List.getElem?_eq_none hcon] at hie
      cases hie
    have hlen : preBody.length = body.length := collectPositions_length hrest
    have hpre : i < (hp :: preBody).length := by
      simp only [List.length_cons, hlen]
      omega
    obtain ⟨p, hp2⟩ : ∃ p, (hp :: preBody)[i]? = some p :=
      ⟨_, List.getElem?_eq_getElem hpre⟩
    rw [hp2]
    exact shiftBody_apply_get hnd.2 hshift i p e hp2 hie

/-- A concrete `Position` store: entity 0 at (3,3), entity 1 at (3,2). -/
def positionsC1 : Nat → Option Position := fun e =>
  if e = 0 then some ⟨3, 3⟩ else if e = 1 then some ⟨3, 2⟩ else none

/-- C1 witness: a head at (3,3) facing Up moves to (3,4) and the segment
previously at (3,2) moves to (3,3). -/
theorem player_movement_advances_and_shifts_example :
    ∃ (positions' : Nat → Option Position) (n : Nat),
      player_movement [0, 1] [(0, Direction.Up)] positionsC1 =
        some (positions', n) ∧
      positions' 0 = some ⟨3, 4⟩ ∧ positions' 1 = some ⟨3, 3⟩ := by
  obtain ⟨ps', n, h1, h2, h3⟩ :=
    player_movement_advances_and_shifts 0 .Up [] [1] positionsC1 ⟨3, 3⟩
      [⟨3, 2⟩] rfl (by decide)
  refine ⟨ps', n, h1, ?_, ?_⟩
  · rw [h2]
    norm_num
  · have h4 := h3 0 1 rfl
    simpa using h4

/-- A store with the head (entity 0) at (0,6) and a body segment
(entity 1) already outside the arena at (-1,6); reachable because no
system drains `GameOverEvent` in the built schedule, so play continues
after the head leaves the arena and growth copies out-of-bounds
positions into the chain. -/
def positionsC2 : Nat → Option Position := fun e =>
  if e = 0 then some ⟨0, 6⟩ else if e = 1 then some ⟨-1, 6⟩ else none

/-- C2 counterexample: moving the head Left from (0,6) onto the pre-move
segment position (-1,6) satisfies the claim's condition, yet the system
emits two `GameOverEvent`s (one per check), not exactly one. -/
theorem player_movement_double_event_example :
    (player_movement [0, 1] [(0, Direction.Left)] positionsC2).map Prod.snd =
      some 2 ∧
    (moveDir Direction.Left ⟨0, 6⟩ ∈ [(⟨0, 6⟩ : Position), ⟨-1, 6⟩] ∨
      OutOfBounds (moveDir Direction.Left ⟨0, 6⟩)) := by
  exact ⟨rfl, by decide⟩

/-- C2 (amended): the movement system emits one `GameOverEvent` for each
of the two conditions that holds — self-collision with a pre-move chain
position, and leaving `[0,ARENA_WIDTH) × [0,ARENA_HEIGHT)` — so two
events when both hold (possible only when a pre-move chain position is
itself out of bounds); when every pre-move chain position is inside the
arena, exactly one event is emitted iff either condition holds and none
otherwise. -/
theorem player_movement_event_count (he : Nat) (dir : Direction)
    (hs : List (Nat × Direction)) (body : List Nat)
    (positions : Nat → Option Position) (hp : Position)
    (preBody : List Position)
    (hcollect : collectPositions positions (he :: body) = some (hp :: preBody)) :
    ∃ (positions' : Nat → Option Position) (n : Nat),
      player_movement (he :: body) ((he, dir) :: hs) positions =
        some (positions', n) ∧
      n = (if moveDir dir hp ∈ hp :: preBody then 1 else 0) +
          (if OutOfBounds (moveDir dir hp) then 1 else 0) ∧
      ((∀ p ∈ hp :: preBody, InBounds p) →
        ((n = 1) ↔
          (moveDir dir hp ∈ hp :: preBody ∨ OutOfBounds (moveDir dir hp))) ∧
        ((n = 0) ↔
          ¬ (moveDir dir hp ∈ hp :: preBody ∨ OutOfBounds (moveDir dir hp)))) := by
  obtain ⟨p0, preB, hpe, hrest, heq⟩ := collectPositions_cons_some hcollect
  obtain ⟨rfl, rfl⟩ : hp = p0 ∧ preBody = preB := by
    injection heq with h1 h2
    exact ⟨h1, h2⟩
  obtain ⟨positions', hshift, hrun⟩ :=
    player_movement_run he dir hs (he :: body) positions (hp :: preBody) hp
      hcollect hpe
  refine ⟨positions', _, hrun, rfl, ?_⟩
  intro hbounds
  by_cases hmem : moveDir dir hp ∈ hp :: preBody
  · have hib : InBounds (moveDir dir hp) := hbounds _ hmem
    have hnoob : ¬ OutOfBounds (moveDir dir hp) :=
      not_outOfBounds_of_inBounds hib
    simp [hmem, hnoob]
  · by_cases hoob : OutOfBounds (moveDir dir hp)
    · simp [hmem, hoob]
    · simp [hmem, hoob]

/-- A store with a head (entity 0) at (0,5) and a body segment
(entity 1) at (1,5), everything inside the arena. -/
def positionsC2w : Nat → Option Position := fun e =>
  if e = 0 then some ⟨0, 5⟩ else if e = 1 then some ⟨1, 5⟩ else none

/-- C2 witness: the head moving Left from (0,5) to (-1,5) leaves the
arena and exactly one `GameOverEvent` is emitted. -/
theorem player_movement_event_count_example :
    ∃ (positions' : Nat → Option Position) (n : Nat),
      player_movement [0, 1] [(0, Direction.Left)] positionsC2w =
        some (positions', n) ∧ n = 1 := by
  obtain ⟨ps', n, h1, h2, h3⟩ :=
    player_movement_event_count 0 .Left [] [1] positionsC2w ⟨0, 5⟩ [⟨1, 5⟩] rfl
  refine ⟨ps', n, h1, ?_⟩
  rw [h2]
  decide

/-- A store with a lone head (entity 0) at (0,5), inside the arena. -/
def positionsC6 : Nat → Option Position := fun e =>
  if e = 0 then some ⟨0, 5⟩ else none

/-- C6 counterexample: after the movement system (collision check
included) completes, the head entity's stored `Position` is (-1,5),
outside `[0,100) × [0,100)` — the check emits an event but does not
restore the position. -/
theorem player_movement_leaves_arena_example :
    (player_movement [0] [(0, Direction.Left)] positionsC6).map
        (fun r => r.1 0) = some (some ⟨-1, 5⟩) ∧
    OutOfBounds (⟨-1, 5⟩ : Position) := by
  exact ⟨rfl, by decide⟩

/-- C6 (amended): the movement system's collision check detects every
post-move head position outside `[0,ARENA_WIDTH) × [0,ARENA_HEIGHT)` and
emits at least one `GameOverEvent` for it, but it does not clamp or
restore the position: the out-of-bounds coordinate stays stored in the
head's `Position` component. -/
theorem player_movement_oob_event (he : Nat) (dir : Direction)
    (hs : List (Nat × Direction)) (body : List Nat)
    (positions : Nat → Option Position) (hp : Position)
    (preBody : List Position)
    (hcollect : collectPositions positions (he :: body) = some (hp :: preBody))
    (hne : he ∉ body) :
    ∃ (positions' : Nat → Option Position) (n : Nat),
      player_movement (he :: body) ((he, dir) :: hs) positions =
        some (positions', n) ∧
      positions' he = some (moveDir dir hp) ∧
      (OutOfBounds (moveDir dir hp) → 1 ≤ n) := by
  obtain ⟨p0, preB, hpe, hrest, heq⟩ := collectPositions_cons_some hcollect
  obtain ⟨rfl, rfl⟩ : hp = p0 ∧ preBody = preB := by
    injection heq with h1 h2
    exact ⟨h1, h2⟩
  obtain ⟨positions', hshift, hrun⟩ :=
    player_movement_run he dir hs (he :: body) positions (hp :: preBody) hp
      hcollect hpe
  refine ⟨positions', _, hrun, ?_, ?_⟩
  · have h1 : positions' he = posSet positions he (moveDir dir hp) he :=
      shiftBody_apply_not_mem hshift hne
    rw [h1]
    simp [posSet]
  · intro hoob
    simp [hoob]

/-- C6 witness: a head at (0,5) facing Left ends the tick stored at the
out-of-bounds cell (-1,5) and at least one `GameOverEvent` is emitted. -/
theorem player_movement_oob_event_example :
    ∃ (positions' : Nat → Option Position) (n : Nat),
      player_movement [0] [(0, Direction.Left)] positionsC6 =
        some (positions', n) ∧
      positions' 0 = some ⟨-1, 5⟩ ∧ 1 ≤ n := by
  obtain ⟨ps', n, h1, h2, h3⟩ :=
    player_movement_oob_event 0 .Left [] [] positionsC6 ⟨0, 5⟩ [] rfl
      (by simp)
  refine ⟨ps', n, h1, ?_, h3 (by decide)⟩
  rw [h2]
  norm_num [moveDir]

/-- The keyboard state the input system reads: `pressed` level state of
the four arrow keys (`Input<KeyCode>`). -/
structure KeyInput where
  left : Bool
  down : Bool
  up : Bool
  right : Bool
deriving DecidableEq, Repr, Fintype

/-- Embedding of the body of `fn player_movement_input` for the first
queried head: the candidate direction is chosen by the source's
if/else-if cascade over `keyboard_input.pressed` (order: Left, Down, Up,
Right), falling back to the current direction; it is committed unless it
equals the current direction's opposite. -/
def player_movement_input (k : KeyInput) (current : Direction) : Direction :=
  let dir : Direction :=
    if k.left then .Left
    else if k.down then .Down
    else if k.up then .Up
    else if k.right then .Right
    else current
  if dir ≠ current.opposite then dir else current

/-- The pressed-key set corresponding to a list of arrow keys held down,
listed in the order they were pressed (most recent last). -/
def pressesToInput (presses : List Direction) : KeyInput :=
  ⟨presses.contains .Left, presses.contains .Down,
   presses.contains .Up, presses.contains .Right⟩

/-- Modelled from the spec: the candidate new direction is the last
pressed arrow key, or the current direction when no arrow key is
pressed; it is committed unless it is the exact reverse of the current
direction.  This is the claim's reading, kept for comparison with the
source's cascade. -/
def spec_movement_input (presses : List Direction) (current : Direction) :
    Direction :=
  let dir := (presses.getLast?).getD current
  if dir ≠ current.opposite then dir else current

/-- C5 counterexample: with Left pressed first and Down pressed last
(both held) and the head facing Up, the code commits Left (its cascade
tries Left first), while the claim's last-pressed rule would reject Down
as the reverse of Up and keep Up. -/
theorem player_movement_input_not_last_pressed :
    player_movement_input (pressesToInput [.Left, .Down]) .Up ≠
      spec_movement_input [.Left, .Down] .Up := by
  decide

/-- The candidate-direction choice actually implemented: the fixed
priority order Left, Down, Up, Right over the pressed arrow keys. -/
def priorityCandidate (presses : List Direction) (current : Direction) :
    Direction :=
  if presses.contains .Left then .Left
  else if presses.contains .Down then .Down
  else if presses.contains .Up then .Up
  else if presses.contains .Right then .Right
  else current

/-- C5 (amended): the candidate new direction is the pressed arrow key
of highest priority in the fixed order Left, Down, Up, Right — hence the
pressed key itself when exactly one arrow key is pressed, and the
current direction when none is pressed — and the head's direction is
updated to the candidate iff the candidate is not the exact reverse of
the current direction; in particular the committed direction is never
the reverse of the current one. -/
theorem player_movement_input_priority_choice (presses : List Direction)
    (current : Direction) :
    (player_movement_input (pressesToInput presses) current =
      if priorityCandidate presses current = current.opposite then current
      else priorityCandidate presses current) ∧
    (∀ d : Direction, priorityCandidate [d] current = d) ∧
    (player_movement_input (pressesToInput []) current = current) ∧
    (∀ k : KeyInput, player_movement_input k current ≠ current.opposite) := by
  refine ⟨?_, ?_, ?_, ?_⟩
  · unfold player_movement_input pressesToInput priorityCandidate
    by_cases h : (if presses.contains Direction.Left then Direction.Left
        else if presses.contains Direction.Down then Direction.Down
        else if presses.contains Direction.Up then Direction.Up
        else if presses.contains Direction.Right then Direction.Right
        else current) = current.opposite
    · simp [h]
    · simp [h]
  · intro d
    cases d <;> cases current <;> decide
  · cases current <;> decide
  · intro k
    cases current <;> revert k <;> decide

/-- C5 witness for the amended statement: with only the Left arrow held
and the head facing Up, the committed direction is Left. -/
theorem player_movement_input_priority_choice_example :
    player_movement_input (pressesToInput [.Left]) .Up = .Left := by
  have h := (player_movement_input_priority_choice [.Left] .Up).1
  rw [h]
  decide

/-- Embedding of `struct GameRules`. -/
structure GameRules where
  winning_score : Nat
  max_rounds : Nat
  max_players : Nat
deriving DecidableEq, Repr

/-- Embedding of `struct GameState` (the legacy round/score resource). -/
structure GameState where
  current_round : Nat
  total_players : Nat
  winning_player : Option String
deriving DecidableEq, Repr

/-- Embedding of `fn new_player_system`.  `add_new_player` is the
`random::<bool>()` coin flip; the returned `Bool` records whether a new
`Player` entity was spawned. -/
def new_player_system (add_new_player : Bool) (game_rules : GameRules)
    (game_state : GameState) : GameState × Bool :=
  if add_new_player = true ∧ game_state.total_players < game_rules.max_players
  then
    ({ game_state with total_players := game_state.total_players + 1 }, true)
  else (game_state, false)

/-- The `GameRules` inserted by `fn startup_system`:
`max_rounds: 100, winning_score: 51, max_players: 4`. -/
def startup_rules : GameRules :=
  { winning_score := 51, max_rounds := 100, max_players := 4 }

/-- The `GameState` after `fn startup_system` ran: two players spawned
and `total_players = 2` (other fields from `GameState::default`). -/
def startup_game_state : GameState :=
  { current_round := 0, total_players := 2, winning_player := none }

/-- Repeated runs of `new_player_system` with the given coin flips. -/
def run_new_player_systems (flips : List Bool) (game_rules : GameRules)
    (game_state : GameState) : GameState :=
  flips.foldl (fun gs b => (new_player_system b game_rules gs).1) game_state

theorem new_player_system_le {b : Bool} {rules : GameRules} {gs : GameState}
    (h : gs.total_players ≤ rules.max_players) :
    (new_player_system b rules gs).1.total_players ≤ rules.max_players := by
  unfold new_player_system
  split
  · rename_i hcond
    simpa using hcond.2
  · simpa using h

theorem run_new_player_systems_le (flips : List Bool) (rules : GameRules)
    (gs : GameState) (h : gs.total_players ≤ rules.max_players) :
    (run_new_player_systems flips rules gs).total_players ≤
      rules.max_players := by
  induction flips generalizing gs with
  | nil => simpa [run_new_player_systems] using h
  | cons b bs ih =>
    have hstep := @new_player_system_le b rules gs h
    simpa [run_new_player_systems, List.foldl_cons] using
      ih _ hstep

/-- C10: `new_player_system` spawns an additional player (incrementing
`total_players`) only while `total_players` is strictly below
`GameRules.max_players`, and starting from the startup state
(`total_players = 2`, `max_players = 4`) no sequence of runs can push
`total_players` above `max_players`. -/
theorem total_players_bounded :
    (∀ (b : Bool) (rules : GameRules) (gs : GameState),
      (new_player_system b rules gs).2 = true →
        gs.total_players < rules.max_players ∧
        (new_player_system b rules gs).1.total_players =
          gs.total_players + 1) ∧
    (∀ (b : Bool) (rules : GameRules) (gs : GameState),
      gs.total_players ≤ rules.max_players →
      (new_player_system b rules gs).1.total_players ≤ rules.max_players) ∧
    (∀ flips : List Bool,
      (run_new_player_systems flips startup_rules
        startup_game_state).total_players ≤ startup_rules.max_players) := by
  refine ⟨?_, ?_, ?_⟩
  · intro b rules gs hspawn
    by_cases hcond : b = true ∧ gs.total_players < rules.max_players
    · refine ⟨hcond.2, ?_⟩
      unfold new_player_system
      rw [if_pos hcond]
    · unfold new_player_system at hspawn
      rw [if_neg hcond] at hspawn
      cases hspawn
  · intro b rules gs h
    exact new_player_system_le h
  · intro flips
    exact run_new_player_systems_le flips startup_rules startup_game_state
      (by decide)

/-- C10 witness: one run with a winning coin flip from the startup state
spawns a third player and stays within the cap of four. -/
theorem total_players_bounded_example :
    startup_game_state.total_players < startup_rules.max_players ∧
    (new_player_system true startup_rules startup_game_state).1.total_players =
      3 ∧
    (run_new_player_systems [true, true, true] startup_rules
      startup_game_state).total_players ≤ startup_rules.max_players := by
  refine ⟨?_, ?_, total_players_bounded.2.2 [true, true, true]⟩
  · exact (total_players_bounded.1 true startup_rules startup_game_state
      rfl).1
  · have h := (total_players_bounded.1 true startup_rules startup_game_state
      rfl).2
    rw [h]
    decide

/-- Embedding of `enum AppState { MainMenu, InGame, Paused, GameOver }`. -/
inductive AppState
  | MainMenu
  | InGame
  | Paused
  | GameOver
deriving DecidableEq, Repr, Fintype

/-- One entity of the data store with the components the snake systems
touch: the `PlayerHead` component (its direction, when present), the
`PlayerSegment` tag and the `Position` component. -/
structure EntityRec where
  id : Nat
  playerHead : Option Direction
  playerSegment : Bool
  pos : Option Position
deriving DecidableEq, Repr

/-- The world as the snake systems see it: the spawned entities, the
next fresh entity id, and the resources `PlayerSegments` (the chain,
head first), `LastTailPosition` and the current `State<AppState>`. -/
structure World where
  entities : List EntityRec
  nextId : Nat
  playerSegments : List Nat
  lastTailPosition : Option Position
  appState : AppState
deriving DecidableEq, Repr

/-- Embedding of `fn spawn_segment`: spawns one `PlayerSegment`-tagged
entity at the given position and returns its id. -/
def spawn_segment (w : World) (position : Position) : World × Nat :=
  ({ w with
      entities := w.entities ++
        [{ id := w.nextId, playerHead := none, playerSegment := true,
           pos := some position }],
      nextId := w.nextId + 1 },
   w.nextId)

/-- Embedding of `fn spawn_player`: spawns the head (tagged `PlayerHead`
facing Up and `PlayerSegment`, at (3,3)) plus one segment at (3,2) and
overwrites the `PlayerSegments` chain with these two entities. -/
def spawn_player (w : World) : World :=
  let headId := w.nextId
  let w1 := { w with
    entities := w.entities ++
      [{ id := headId, playerHead := some Direction.Up, playerSegment := true,
         pos := some ⟨3, 3⟩ }],
    nextId := headId + 1 }
  let r := spawn_segment w1 ⟨3, 2⟩
  { r.1 with playerSegments := [headId, r.2] }

/-- Embedding of `fn game_over`: when at least one `GameOverEvent` is
pending, despawns every entity returned by the `With<Position>` query and
the `With<PlayerSegment>` query, then re-invokes `spawn_player`. -/
def game_over (pending : Bool) (w : World) : World :=
  if pending then
    spawn_player
      { w with entities :=
          w.entities.filter (fun e => e.pos.isNone && !e.playerSegment) }
  else w

/-- Embedding of `fn player_growth`: reads the single entity of the
`Query<&Position, With<PlayerHead>>` (`single().unwrap()` panics — `none`
— unless exactly one entity has both components), spawns a segment at
that position and pushes it onto the `PlayerSegments` chain. -/
def player_growth (w : World) : Option World :=
  match w.entities.filterMap
      (fun e => if e.playerHead.isSome then e.pos else none) with
  | [p] =>
    let r := spawn_segment w p
    some { r.1 with playerSegments := r.1.playerSegments ++ [r.2] }
  | _ => none

/-- C3: a run of the game-over system with at least one pending
`GameOverEvent` despawns every positioned and every segment-tagged
entity, whatever the previous chain length, and respawns the initial
two-entity snake — the head at (3,3) and one segment at (3,2), the
spawn routine's positions — without changing the application state; with
no pending event it changes nothing. -/
theorem game_over_resets_world (w : World) :
    game_over false w = w ∧
    (game_over true w).appState = w.appState ∧
    (game_over true w).playerSegments = [w.nextId, w.nextId + 1] ∧
    (game_over true w).entities.filter
        (fun e => e.pos.isSome || e.playerSegment) =
      [{ id := w.nextId, playerHead := some Direction.Up,
         playerSegment := true, pos := some ⟨3, 3⟩ },
       { id := w.nextId + 1, playerHead := none, playerSegment := true,
         pos := some ⟨3, 2⟩ }] := by
  refine ⟨rfl, rfl, rfl, ?_⟩
  have hgo : (game_over true w).entities =
      (w.entities.filter (fun e => e.pos.isNone && !e.playerSegment) ++
        [{ id := w.nextId, playerHead := some Direction.Up,
           playerSegment := true, pos := some ⟨3, 3⟩ }]) ++
      [{ id := w.nextId + 1, playerHead := none, playerSegment := true,
         pos := some ⟨3, 2⟩ }] := rfl
  rw [hgo, List.filter_append, List.filter_append]
  have hnil : (w.entities.filter
      (fun e => e.pos.isNone && !e.playerSegment)).filter
      (fun e => e.pos.isSome || e.playerSegment) = [] := by
    rw [List.filter_filter, List.filter_eq_nil_iff]
    intro a _
    cases ha : a.pos <;> cases hs : a.playerSegment <;> simp [ha, hs]
  rw [hnil]
  rfl

/-- C4: whenever the growth system runs and exactly one entity carries
both a `PlayerHead` and a `Position` (the head), it appends exactly one
new segment-tagged entity, spawned at the head's current position, to
the tail end of the `PlayerSegments` chain — and it does so for every
run, with no `GrowthEvent` input gating it (the embedding takes none). -/
theorem player_growth_appends_segment (w : World) (p : Position)
    (hsingle : w.entities.filterMap
        (fun e => if e.playerHead.isSome then e.pos else none) = [p]) :
    player_growth w = some
      { entities := w.entities ++
          [{ id := w.nextId, playerHead := none, playerSegment := true,
             pos := some p }],
        nextId := w.nextId + 1,
        playerSegments := w.playerSegments ++ [w.nextId],
        lastTailPosition := w.lastTailPosition,
        appState := w.appState } := by
  unfold player_growth
  rw [hsingle]
  rfl

/-- The empty world before any snake entity is spawned. -/
def emptyWorld : World :=
  { entities := [], nextId := 0, playerSegments := [],
    lastTailPosition := none, appState := AppState.InGame }

/-- A world holding just the freshly spawned two-piece snake. -/
def worldC4 : World :=
  spawn_player emptyWorld

/-- C4 witness: growing the freshly spawned snake appends entity 2 at
the head position (3,3) to the chain, making it [0, 1, 2]. -/
theorem player_growth_appends_segment_example :
    player_growth worldC4 = some
      { entities := worldC4.entities ++
          [{ id := 2, playerHead := none, playerSegment := true,
             pos := some ⟨3, 3⟩ }],
        nextId := 3,
        playerSegments := [0, 1, 2],
        lastTailPosition := none,
        appState := AppState.InGame } := by
  have h := player_growth_appends_segment worldC4 ⟨3, 3⟩ (by rfl)
  rw [h]
  rfl

theorem collectPositions_none_of_mem {positions : Nat → Option Position} :
    ∀ {es : List Nat} {e : Nat}, e ∈ es → positions e = none →
      collectPositions positions es = none
  | [], e, he, _ => absurd he (by simp)
  | e' :: es, e, he, hnone => by
    rcases List.mem_cons.mp he with rfl | hmem
    · simp [collectPositions, hnone]
    · have hrec := collectPositions_none_of_mem hmem hnone
      unfold collectPositions
      rw [hrec]
      cases positions e' <;> rfl

/-- C8: invariant violations abort the tick (the `unwrap`s panic,
modelled as `none`) instead of being skipped: a chain entity with no
`Position` component makes the movement system panic, and the growth
system panics whenever there is not exactly one entity carrying both a
`PlayerHead` and a `Position`. -/
theorem invariant_violation_fail_fast :
    (∀ (chain : List Nat) (he : Nat) (dir : Direction)
       (hs : List (Nat × Direction)) (positions : Nat → Option Position)
       (e : Nat), e ∈ chain → positions e = none →
       player_movement chain ((he, dir) :: hs) positions = none) ∧
    (∀ w : World,
       (¬ ∃ p, w.entities.filterMap
           (fun e => if e.playerHead.isSome then e.pos else none) = [p]) →
       player_growth w = none) := by
  constructor
  · intro chain he dir hs positions e hmem hnone
    have hc := collectPositions_none_of_mem hmem hnone
    simp [player_movement, hc]
  · intro w h
    unfold player_growth
    split
    · rename_i p hp
      exact absurd ⟨p, hp⟩ h
    · rfl

/-- C8 witness: a chain entity without a position aborts the movement
system, and a world with no head aborts the growth system. -/
theorem invariant_violation_fail_fast_example :
    player_movement [7] [(0, Direction.Up)] (fun _ => none) = none ∧
    player_growth emptyWorld = none := by
  constructor
  · exact invariant_violation_fail_fast.1 [7] 0 .Up [] (fun _ => none) 7
      (by simp) rfl
  · exact invariant_violation_fail_fast.2 _ (by simp [emptyWorld])

/-- The head query of the input and movement systems: every entity with
a `PlayerHead`, paired with its direction. -/
def headsQuery (w : World) : List (Nat × Direction) :=
  w.entities.filterMap (fun e => e.playerHead.map (fun d => (e.id, d)))

/-- The `Position` component store of the world, as the systems query
it. -/
def posQuery (w : World) : Nat → Option Position :=
  fun i => (w.entities.find? (fun e => e.id == i)).bind (fun e => e.pos)

/-- Writing the `Position` store back into the world after a system held
mutable access to every positioned entity's `Position`. -/
def applyPositions (w : World) (positions : Nat → Option Position) : World :=
  { w with entities := w.entities.map (fun e =>
      if e.pos.isSome then { e with pos := positions e.id } else e) }

/-- The input system `fn player_movement_input` acting on the world:
commits the chosen direction to the first queried head (no head, no
change). -/
def runMovementInput (k : KeyInput) (w : World) : World :=
  match headsQuery w with
  | [] => w
  | (i, d) :: _ =>
    { w with entities := w.entities.map (fun e =>
        if e.id = i then
          { e with playerHead := some (player_movement_input k d) }
        else e) }

/-- The movement system acting on the world, returning the emitted
`GameOverEvent` count alongside. -/
def runMovement (w : World) : Option (World × Nat) :=
  (player_movement w.playerSegments (headsQuery w) (posQuery w)).map
    (fun r => (applyPositions w r.1, r.2))

/-- One fixed step of the `on_update(AppState::InGame)` system set, in
the declared order (`PlayerMovement::Input` before `::Movement` before
`::Growth`).  The `GameOverEvent` count is dropped: the `game_over`
system registration in `main` is commented out, so no reader drains the
events. -/
def tick (k : KeyInput) (w : World) : Option World :=
  match runMovement (runMovementInput k w) with
  | none => none
  | some r => player_growth r.1

/-- A run of consecutive fixed steps with the given per-step keyboard
states. -/
def runTicks : List KeyInput → World → Option World
  | [], w => some w
  | k :: ks, w =>
    match tick k w with
    | none => none
    | some w' => runTicks ks w'

/-- Overwriting the `LastTailPosition` resource with a given value. -/
def setLTP (w : World) (q : Option Position) : World :=
  { w with lastTailPosition := q }

theorem runMovementInput_lastTail (k : KeyInput) (w : World) :
    (runMovementInput k w).lastTailPosition = w.lastTailPosition := by
  unfold runMovementInput
  cases h : headsQuery w with
  | nil => rfl
  | cons hd tl => cases hd; rfl

theorem runMovement_lastTail {w : World} {r : World × Nat}
    (h : runMovement w = some r) :
    r.1.lastTailPosition = w.lastTailPosition := by
  unfold runMovement at h
  cases hpm : player_movement w.playerSegments (headsQuery w) (posQuery w) with
  | none => rw [hpm] at h; cases h
  | some x =>
    rw [hpm] at h
    cases h
    rfl

theorem player_growth_lastTail {w w' : World} (h : player_growth w = some w') :
    w'.lastTailPosition = w.lastTailPosition := by
  unfold player_growth at h
  split at h
  · cases h
    rfl
  · cases h

theorem tick_lastTail {k : KeyInput} {w w' : World} (h : tick k w = some w') :
    w'.lastTailPosition = w.lastTailPosition := by
  unfold tick at h
  cases hrm : runMovement (runMovementInput k w) with
  | none => rw [hrm] at h; cases h
  | some r =>
    rw [hrm] at h
    calc w'.lastTailPosition = r.1.lastTailPosition :=
          player_growth_lastTail h
      _ = (runMovementInput k w).lastTailPosition := runMovement_lastTail hrm
      _ = w.lastTailPosition := runMovementInput_lastTail k w

theorem runMovementInput_setLTP (k : KeyInput) (w : World)
    (q : Option Position) :
    runMovementInput k (setLTP w q) = setLTP (runMovementInput k w) q := by
  unfold runMovementInput
  have hq : headsQuery (setLTP w q) = headsQuery w := rfl
  rw [hq]
  cases h : headsQuery w with
  | nil => rfl
  | cons hd tl => cases hd; rfl

theorem runMovement_setLTP (w : World) (q : Option Position) :
    runMovement (setLTP w q) =
      (runMovement w).map (fun r => (setLTP r.1 q, r.2)) := by
  unfold runMovement
  have h1 : (setLTP w q).playerSegments = w.playerSegments := rfl
  have h2 : headsQuery (setLTP w q) = headsQuery w := rfl
  have h3 : posQuery (setLTP w q) = posQuery w := rfl
  rw [h1, h2, h3]
  cases hpm : player_movement w.playerSegments (headsQuery w) (posQuery w) with
  | none => rfl
  | some x => rfl

theorem player_growth_setLTP (w : World) (q : Option Position) :
    player_growth (setLTP w q) =
      (player_growth w).map (fun w' => setLTP w' q) := by
  unfold player_growth
  have h1 : (setLTP w q).entities = w.entities := rfl
  rw [h1]
  cases hfm : w.entities.filterMap
      (fun e => if e.playerHead.isSome then e.pos else none) with
  | nil => rfl
  | cons p tl => cases tl <;> rfl

theorem tick_setLTP (k : KeyInput) (w : World) (q : Option Position) :
    tick k (setLTP w q) = (tick k w).map (fun w' => setLTP w' q) := by
  unfold tick
  rw [runMovementInput_setLTP, runMovement_setLTP]
  cases hrm : runMovement (runMovementInput k w) with
  | none => rfl
  | some r =>
    simp only [Option.map_some']
    exact player_growth_setLTP r.1 q

/-- C9: the `LastTailPosition` resource is inert.  No step of the
registered in-game schedule writes it (a completed tick leaves it
unchanged), no step reads it (replacing its value commutes with the
tick, changing nothing else of the outcome), and starting from its
initial inserted value `LastTailPosition::default()` — `None` — it stays
`None` over any run; growth placement (inside `tick`) therefore never
consults the vacated-tail position. -/
theorem lastTailPosition_inert :
    (∀ (k : KeyInput) (w w' : World), tick k w = some w' →
      w'.lastTailPosition = w.lastTailPosition) ∧
    (∀ (k : KeyInput) (w : World) (q : Option Position),
      tick k (setLTP w q) = (tick k w).map (fun w' => setLTP w' q)) ∧
    (∀ (ks : List KeyInput) (w w' : World),
      w.lastTailPosition = none → runTicks ks w = some w' →
      w'.lastTailPosition = none) := by
  refine ⟨fun k w w' h => tick_lastTail h, tick_setLTP, ?_⟩
  intro ks
  induction ks with
  | nil =>
    intro w w' hn h
    cases h
    exact hn
  | cons k ks ih =>
    intro w w' hn h
    unfold runTicks at h
    cases ht : tick k w with
    | none => rw [ht] at h; cases h
    | some w1 =>
      rw [ht] at h
      exact ih w1 w' ((tick_lastTail ht).trans hn) h

/-- The keyboard state with no arrow key pressed. -/
def kNone : KeyInput := ⟨false, false, false, false⟩

/-- C9 witness: one fixed step from the freshly spawned snake completes
and `LastTailPosition` is still `None`. -/
theorem lastTailPosition_inert_example :
    ∃ w', runTicks [kNone] worldC4 = some w' ∧
      w'.lastTailPosition = none := by
  have hsome : (runTicks [kNone] worldC4).isSome = true := by decide
  obtain ⟨w', hw'⟩ := Option.isSome_iff_exists.mp hsome
  exact ⟨w', hw', lastTailPosition_inert.2.2 [kNone] worldC4 w' rfl hw'⟩

/-- The phase in which a system run happens relative to a state
transition. -/
inductive HookPhase
  | exitPhase
  | enterPhase
  | updatePhase
deriving DecidableEq, Repr

/-- One recorded system run: which system ran, the value of
`CurrentState` at the moment it ran, and in which hook phase. -/
structure SystemRun where
  system : Nat
  stateAt : AppState
  phase : HookPhase
deriving DecidableEq, Repr

/-- The registration table of the state gate: for each state, the
systems registered as its exit hooks, enter hooks, and ordinary
on_update systems (in `main`: exit(MainMenu) = cleanup_menu,
enter(MainMenu) = startup_system and setup_menu, update(MainMenu) = menu,
enter(InGame) = position_translation, size_scaling and spawn_player,
update(InGame) = the fixed-step movement set). -/
structure StateGateConfig where
  exitSystems : AppState → List Nat
  enterSystems : AppState → List Nat
  updateSystems : AppState → List Nat

/-- Modelled from the spec: the State Gate's driver state, absent from
src/ (it lives in the bevy dependency's `State` machinery) — the current
state plus the scheduled transition target; a second `set` before
processing overwrites the pending target (last-writer-wins). -/
structure StateGate where
  current : AppState
  pending : Option AppState
deriving DecidableEq, Repr

/-- Modelled from the spec: requesting a transition schedules it without
mutating `CurrentState`; requesting the already-current state is a
no-op. -/
def set_state (g : StateGate) (target : AppState) : StateGate :=
  if target = g.current then g else { g with pending := some target }

/-- Modelled from the spec: at the start of the next eligible phase the
gate (a) runs every exit hook of the previous state exactly once, (b)
sets `CurrentState` to the target, (c) runs every enter hook of the
target exactly once, and (d) runs the target's on_update systems, which
stay eligible on subsequent ticks; with no pending transition only the
on_update systems of the current state run. -/
def state_gate_tick (cfg : StateGateConfig) (g : StateGate) :
    StateGate × List SystemRun :=
  match g.pending with
  | some next =>
    (⟨next, none⟩,
      (cfg.exitSystems g.current).map (fun s => ⟨s, g.current, .exitPhase⟩) ++
      ((cfg.enterSystems next).map (fun s => ⟨s, next, .enterPhase⟩) ++
       (cfg.updateSystems next).map (fun s => ⟨s, next, .updatePhase⟩)))
  | none =>
    (g, (cfg.updateSystems g.current).map (fun s => ⟨s, g.current, .updatePhase⟩))

theorem count_map_run (l : List Nat) (s : Nat) (st : AppState)
    (ph : HookPhase) (hnd : l.Nodup) (hmem : s ∈ l) :
    (l.map (fun s' => (⟨s', st, ph⟩ : SystemRun))).count ⟨s, st, ph⟩ = 1 := by
  have hinj : Function.Injective
      (fun s' => (⟨s', st, ph⟩ : SystemRun)) := by
    intro a b hab
    injection hab
  rw [List.count_eq_one_of_mem (hnd.map hinj) (List.mem_map_of_mem _ hmem)]

theorem count_map_run_ne_phase (l : List Nat) (s : Nat) (st st' : AppState)
    (ph ph' : HookPhase) (hne : ph ≠ ph') :
    (l.map (fun s' => (⟨s', st', ph'⟩ : SystemRun))).count ⟨s, st, ph⟩ = 0 := by
  rw [List.count_eq_zero]
  intro hmem
  obtain ⟨s', _, heq⟩ := List.mem_map.mp hmem
  injection heq with h1 h2 h3
  exact hne h3.symm

/-- C7: for a pending transition prev → next with prev ≠ next, one gate
step runs each registered exit hook of prev exactly once while
`CurrentState` still reads prev, then updates `CurrentState` to next and
clears the transition, runs each registered enter hook of next exactly
once with `CurrentState` already reading next — every exit run precedes
every enter/update run — and the on_update systems of next run in this
same step and again on the following step. -/
theorem state_gate_transition_once (cfg : StateGateConfig)
    (prev next : AppState) (hne : prev ≠ next)
    (hex : (cfg.exitSystems prev).Nodup)
    (hen : (cfg.enterSystems next).Nodup) :
    (state_gate_tick cfg ⟨prev, some next⟩).1 = ⟨next, none⟩ ∧
    (∀ s ∈ cfg.exitSystems prev,
      (state_gate_tick cfg ⟨prev, some next⟩).2.count
        ⟨s, prev, .exitPhase⟩ = 1) ∧
    (∀ s ∈ cfg.enterSystems next,
      (state_gate_tick cfg ⟨prev, some next⟩).2.count
        ⟨s, next, .enterPhase⟩ = 1) ∧
    (∀ r ∈ (state_gate_tick cfg ⟨prev, some next⟩).2,
      (r.phase = .exitPhase → r.stateAt = prev) ∧
      (r.phase ≠ .exitPhase → r.stateAt = next)) ∧
    (∃ l1 l2, (state_gate_tick cfg ⟨prev, some next⟩).2 = l1 ++ l2 ∧
      (∀ r ∈ l1, r.phase = .exitPhase) ∧
      (∀ r ∈ l2, r.phase ≠ .exitPhase)) ∧
    (∀ s ∈ cfg.updateSystems next,
      (⟨s, next, .updatePhase⟩ : SystemRun) ∈
        (state_gate_tick cfg ⟨prev, some next⟩).2 ∧
      (⟨s, next, .updatePhase⟩ : SystemRun) ∈
        (state_gate_tick cfg (state_gate_tick cfg ⟨prev, some next⟩).1).2) := by
  refine ⟨rfl, ?_, ?_, ?_, ?_, ?_⟩
  · intro s hmem
    show ((cfg.exitSystems prev).map (fun s' => (⟨s', prev, .exitPhase⟩ :
        SystemRun)) ++ _).count _ = 1
    rw [List.count_append, count_map_run _ _ _ _ hex hmem,
      List.count_append,
      count_map_run_ne_phase _ _ _ _ _ _ (by decide),
      count_map_run_ne_phase _ _ _ _ _ _ (by decide)]
  · intro s hmem
    show (_ ++ ((cfg.enterSystems next).map (fun s' => (⟨s', next,
        .enterPhase⟩ : SystemRun)) ++ _)).count _ = 1
    rw [List.count_append, List.count_append,
      count_map_run _ _ _ _ hen hmem,
      count_map_run_ne_phase _ _ _ _ _ _ (by decide),
      count_map_run_ne_phase _ _ _ _ _ _ (by decide)]
  · intro r hmem
    rcases List.mem_append.mp hmem with h | h
    · obtain ⟨s', _, rfl⟩ := List.mem_map.mp h
      exact ⟨fun _ => rfl, fun hc => absurd rfl hc⟩
    · rcases List.mem_append.mp h with h2 | h2 <;>
        obtain ⟨s', _, rfl⟩ := List.mem_map.mp h2 <;>
        exact ⟨fun hc => absurd hc (by simp), fun _ => rfl⟩
  · refine ⟨(cfg.exitSystems prev).map
        (fun s => (⟨s, prev, .exitPhase⟩ : SystemRun)),
      (cfg.enterSystems next).map
        (fun s => (⟨s, next, .enterPhase⟩ : SystemRun)) ++
      (cfg.updateSystems next).map
        (fun s => (⟨s, next, .updatePhase⟩ : SystemRun)),
      rfl, ?_, ?_⟩
    · intro r hmem
      obtain ⟨s', _, rfl⟩ := List.mem_map.mp hmem
      rfl
    · intro r hmem
      rcases List.mem_append.mp hmem with h | h <;>
        obtain ⟨s', _, rfl⟩ := List.mem_map.mp h <;> simp
  · intro s hmem
    constructor
    · refine List.mem_append.mpr (Or.inr (List.mem_append.mpr (Or.inr ?_)))
      exact List.mem_map_of_mem _ hmem
    · show _ ∈ (cfg.updateSystems next).map
        (fun s' => (⟨s', next, .updatePhase⟩ : SystemRun))
      exact List.mem_map_of_mem _ hmem

/-- The concrete registration table of `main` (system ids: 0
cleanup_menu, 1 startup_system, 2 setup_menu, 3 menu, 4
position_translation, 5 size_scaling, 6 spawn_player, 7 the fixed-step
movement set). -/
def mainGateConfig : StateGateConfig :=
  { exitSystems := fun s => if s = .MainMenu then [0] else []
    enterSystems := fun s =>
      if s = .MainMenu then [1, 2] else if s = .InGame then [4, 5, 6] else []
    updateSystems := fun s =>
      if s = .MainMenu then [3] else if s = .InGame then [7] else [] }

/-- C7 witness: for the MainMenu → InGame transition of `main`'s
registration table, cleanup_menu runs exactly once while the state still
reads MainMenu, the gate lands on InGame with the transition cleared,
and spawn_player runs exactly once with the state already InGame. -/
theorem state_gate_transition_once_example :
    (state_gate_tick mainGateConfig ⟨.MainMenu, some .InGame⟩).1 =
      ⟨.InGame, none⟩ ∧
    (state_gate_tick mainGateConfig ⟨.MainMenu, some .InGame⟩).2.count
      ⟨0, .MainMenu, .exitPhase⟩ = 1 ∧
    (state_gate_tick mainGateConfig ⟨.MainMenu, some .InGame⟩).2.count
      ⟨6, .InGame, .enterPhase⟩ = 1 := by
  obtain ⟨h1, h2, h3, _, _, _⟩ :=
    state_gate_transition_once mainGateConfig .MainMenu .InGame (by decide)
      (by decide) (by decide)
  exact ⟨h1, h2 0 (by decide), h3 6 (by decide)⟩

end NuisanceValue
